import Mathlib

/-!
# Verification of the opesci-fd staggered-grid field core (`opesci/fields.py`)

This development gives a shallow embedding of the symbolic core of
`opesci/fields.py`: the staggering model (`Field.set`, `VField.set`,
`SField.set`, `RegularField.__init__`), the index-alignment engine
(`Field.align`), and the free-surface boundary generators
(`VField.set_free_surface`, `SField.set_free_surface`), together with the
keyword-argument construction convention (`Field.__init__`, `Media.__init__`).

Modelling conventions:

* Index expressions.  Every grid index that the Python code manipulates is a
  sympy expression of the form `symbol + rational offset` (e.g. `x`, `t + 1`,
  `z - 1/2`); we embed such an index as `SymIdx` (a symbol name paired with a
  rational offset).  sympy substitution `e.subs(old, new)` on such linear
  indices rewrites `old.sym + c` to `new + (c - old.off)`; `SymIdx.subst`
  implements exactly that rewriting.
* Expression trees.  sympy expressions are embedded as `Expr`: symbols,
  numbers, indexed accesses (`Indexed` with a base that is a velocity field,
  stress field, regular field, media object, or anything else), `DDerivative`
  atoms (opaque derivative placeholders from the external `derivative`
  module), and composite nodes.  Composite sympy nodes (`Add`, `Mul`, ...) are
  represented by unary and binary operator nodes; an n-ary sympy node is
  represented by nesting, which preserves the recursive rebuild
  `expr.func(*[align(a) for a in expr.args])` performed by `Field.align`.
* External collaborators.  The symbolic solver (`sympy.solve`, of which the
  code always takes solution `[0]`) and the finite-difference approximation
  tables `DDerivative.fd[accuracy]` produced by the external `derivative`
  module are parameters (`solveFn`, `fdAcc`) of the boundary generators; the
  theorems hold for every behaviour of these collaborators.
* Mutation.  Python methods that mutate `self` are state transformers
  `FieldState → FieldState`; methods that can raise return the state paired
  with an optional error message (all `self.bc` assignments in the source
  occur after the last possible raise point of their method, so the state at
  a raise is the entry state).
* The constant `hf` (one half) is imported by `fields.py` from the repository
  module `util.py`, which is not part of the sources; per the specification
  ("shift that axis's index by +1/2 (half-grid-cell)") it is the rational 1/2.
-/

namespace Opesci

/-- A linear symbolic grid index: a base symbol plus a rational offset,
embedding sympy index expressions such as `x`, `t + 1` or `z - 1/2`. -/
structure SymIdx where
  sym : String
  off : ℚ
deriving DecidableEq

/-- Add a rational offset to an index (sympy `idx + q`). -/
def SymIdx.add (i : SymIdx) (q : ℚ) : SymIdx := ⟨i.sym, i.off + q⟩

/-- sympy `i.subs(old, new)` for linear indices: any index over the same base
symbol as `old` is rewritten, keeping the relative offset. -/
def SymIdx.subst (old new i : SymIdx) : SymIdx :=
  if i.sym = old.sym then ⟨new.sym, new.off + (i.off - old.off)⟩ else i

/-- An opaque `DDerivative` object from the external `derivative` module:
its display name, the symbol it differentiates with respect to (`.var`), and
the derivative order.  Its `fd` table of approximations is external and is
passed to the boundary generators as the parameter `fdAcc`. -/
structure DerivAtom where
  name : String
  var : String
  order : ℕ
deriving DecidableEq

/-- The Python class of an `IndexedBase` from `fields.py`: velocity field
(`VField`), stress field (`SField`), regular field (`RegularField`), or the
plain `Field` base class. -/
inductive FKind
  | vel
  | str
  | reg
  | plain
deriving DecidableEq

/-- The data of a field object that `Field.align` consults on an indexed
reference: its class, name and staggering. -/
structure FRef where
  kind : FKind
  name : String
  staggered : List Bool
deriving DecidableEq

/-- A `Media` object referenced inside an expression. -/
structure MRef where
  name : String
deriving DecidableEq

/-- The base of an indexed reference: a field, a media object, or any other
`IndexedBase` (which `Field.align` leaves untouched). -/
inductive Base
  | fld (f : FRef)
  | media (m : MRef)
  | other (name : String)
deriving DecidableEq

/-- Embedded sympy expression trees. -/
inductive Expr
  | symOff (i : SymIdx)
  | num (q : ℚ)
  | deriv (a : DerivAtom)
  | indexed (b : Base) (idx : List SymIdx)
  | un (op : String) (a : Expr)
  | bin (op : String) (a b : Expr)
deriving DecidableEq

/-- A symbolic equation `Eq(lhs, rhs)`; sympy `Eq(e)` is `Eq(e, 0)`. -/
structure Eqn where
  lhs : Expr
  rhs : Expr
deriving DecidableEq

/-- The constant `hf = 1/2` from the repository module `util.py` (not under
the sources; per the specification it is the half-grid-cell shift 1/2). -/
def hf : ℚ := 1/2

/-- Apply a function to every grid index occurring in an expression. -/
def Expr.mapIdxs (f : SymIdx → SymIdx) : Expr → Expr
  | .symOff i => .symOff (f i)
  | .num q => .num q
  | .deriv a => .deriv a
  | .indexed b idx => .indexed b (idx.map f)
  | .un op a => .un op (a.mapIdxs f)
  | .bin op a b => .bin op (a.mapIdxs f) (b.mapIdxs f)

/-- sympy `e.subs(old, new)` for a linear index substitution. -/
def Expr.substIdx (old new : SymIdx) (e : Expr) : Expr :=
  e.mapIdxs (SymIdx.subst old new)

/-- Substitution on both sides of an equation. -/
def Eqn.substIdx (old new : SymIdx) (e : Eqn) : Eqn :=
  ⟨e.lhs.substIdx old new, e.rhs.substIdx old new⟩

/-- `util.get_all_objects(expr, DDerivative)`: collect the `DDerivative`
atoms of an expression, in traversal order.  Modelled from the spec: the
helper lives in the repository module `util.py`, which is not under the
sources; the specification describes it as gathering the derivative terms of
an expression so that each can be substituted. -/
def Expr.collectDerivs : Expr → List DerivAtom
  | .deriv a => [a]
  | .un _ a => a.collectDerivs
  | .bin _ a b => a.collectDerivs ++ b.collectDerivs
  | _ => []

/-- `expr.subs(deriv_0, deriv_sub)`: replace one derivative atom. -/
def Expr.substDeriv (a : DerivAtom) (r : Expr) : Expr → Expr
  | .deriv x => if x = a then r else .deriv x
  | .un op e => .un op (Expr.substDeriv a r e)
  | .bin op e1 e2 => .bin op (Expr.substDeriv a r e1) (Expr.substDeriv a r e2)
  | e => e

/-- `expr.subs(dict1)` where `dict1` maps every derivative atom of the
expression to an image: replace every derivative atom. -/
def Expr.substDerivsFd (f : DerivAtom → Expr) : Expr → Expr
  | .deriv x => f x
  | .un op e => .un op (e.substDerivsFd f)
  | .bin op e1 e2 => .bin op (e1.substDerivsFd f) (e2.substDerivsFd f)
  | e => e

/-- The substitution dictionary build `dict1[deriv] = deriv.fd[acc]` followed
by `expr.subs(dict1)`: `none` models the `KeyError` raised when some
derivative atom of the expression has no approximation at accuracy `acc` in
the external table. -/
def substFdAll (fdAcc : DerivAtom → ℕ → Option Expr) (acc : ℕ) (e : Expr) : Option Expr :=
  if e.collectDerivs.all (fun a => (fdAcc a acc).isSome) then
    some (e.substDerivsFd (fun a => (fdAcc a acc).getD (.num 0)))
  else none

/-- The index-building loop of the `Field`-base branch of `Field.align`
(`for k in range(len(expr.indices)): ...`), with `k` starting at `start`:
compare the staggering of the aligning field `rs` with the staggering of the
referenced field `bs` at each position and shift by `+hf` / `-hf` on a
mismatch. -/
def zipShiftFrom (rs bs : List Bool) : ℕ → List SymIdx → List SymIdx
  | _, [] => []
  | k, i :: l =>
    (if rs.getD k false = bs.getD k false then i
     else if rs.getD k false then i.add hf
     else i.add (-hf)) :: zipShiftFrom rs bs (k+1) l

/-- The `Media` branch loop of `Field.align`
(`for d in range(self.dimension): if self.staggered[d+1]: idx[d] += hf`),
iterating `remaining` times with current loop variable `d`. -/
def mediaAlignGo (staggered : List Bool) : ℕ → ℕ → List SymIdx → List SymIdx
  | _, 0, cur => cur
  | d, n+1, cur =>
      mediaAlignGo staggered (d+1) n
        (if staggered.getD (d+1) false then cur.set d ((cur.getD d ⟨"", 0⟩).add hf) else cur)

/-- The index rewriting that `Field.align` applies to a `Media` reference. -/
def mediaAlign (dimension : ℕ) (staggered : List Bool) (idx : List SymIdx) : List SymIdx :=
  mediaAlignGo staggered 0 dimension idx

/-- `Field.align(expr)` of an aligning field with the given `dimension` and
`staggered` sequence: symbols and numbers are returned unchanged; an indexed
reference whose base is a velocity or stress field is shifted according to
the staggering comparison; a media reference is shifted on the axes where
the aligning field is staggered; any other indexed base is returned
unchanged; composite nodes are rebuilt from aligned operands. -/
def align (dimension : ℕ) (staggered : List Bool) : Expr → Expr
  | .symOff i => .symOff i
  | .num q => .num q
  | .deriv a => .deriv a
  | .indexed b idx =>
    match b with
    | .media _ => .indexed b (mediaAlign dimension staggered idx)
    | .fld f =>
      if f.kind = FKind.vel ∨ f.kind = FKind.str then
        .indexed b (zipShiftFrom staggered f.staggered 0 idx)
      else .indexed b idx
    | .other _ => .indexed b idx
  | .un op a => .un op (align dimension staggered a)
  | .bin op a b => .bin op (align dimension staggered a) (align dimension staggered b)

/-- Spec-side shift amount for a field reference (section 4.2 of the spec):
equal staggering gives no shift, reference staggered against unstaggered
target gives `+1/2`, and the converse gives `-1/2`. -/
def specShift (r b : Bool) : ℚ := if r = b then 0 else if r then hf else -hf

/-- Map a position-dependent function over an index list, positions starting
at `k`. -/
def mapIdxFrom (f : ℕ → SymIdx → SymIdx) : ℕ → List SymIdx → List SymIdx
  | _, [] => []
  | k, i :: l => f k i :: mapIdxFrom f (k+1) l

/-- Spec-side description of the aligned index list of a field reference:
each position is shifted by the `specShift` of the two staggering flags. -/
def specFieldIdx (rs bs : List Bool) (l : List SymIdx) : List SymIdx :=
  mapIdxFrom (fun k i => i.add (specShift (rs.getD k false) (bs.getD k false))) 0 l

/-- Spec-side description of the aligned index list of a media reference:
the index of each spatial axis on which the reference field is staggered is
shifted by `+1/2`, every other index is unchanged (media index position `p`
carries spatial axis `p+1`). -/
def specMediaIdx (dimension : ℕ) (rs : List Bool) (l : List SymIdx) : List SymIdx :=
  mapIdxFrom (fun p i => if p < dimension ∧ rs.getD (p+1) false then i.add hf else i) 0 l

/-- Position-wise staggering agreement between the aligning field `rs` and a
referenced field `bs` over the positions of an index list (positions starting
at `k`): the hypothesis of the alignment no-op claim. -/
def stagMatchFrom (rs bs : List Bool) : ℕ → List SymIdx → Bool
  | _, [] => true
  | k, _ :: l => (rs.getD k false == bs.getD k false) && stagMatchFrom rs bs (k+1) l

/-- Claim-side hypothesis of the alignment no-op claim: every indexed
velocity/stress field reference in the expression has staggering agreeing
with the aligning field on every axis.  (Says nothing about media
references.) -/
def fieldRefsMatch (rs : List Bool) : Expr → Bool
  | .indexed (.fld f) l =>
      if f.kind = FKind.vel ∨ f.kind = FKind.str then stagMatchFrom rs f.staggered 0 l
      else true
  | .un _ a => fieldRefsMatch rs a
  | .bin _ a b => fieldRefsMatch rs a && fieldRefsMatch rs b
  | _ => true

/-- Strengthened hypothesis under which alignment really is a no-op: every
field reference agrees in staggering, and the expression contains no media
reference. -/
def alignFixed (rs : List Bool) : Expr → Bool
  | .indexed (.fld f) l =>
      if f.kind = FKind.vel ∨ f.kind = FKind.str then stagMatchFrom rs f.staggered 0 l
      else true
  | .indexed (.media _) _ => false
  | .un _ a => alignFixed rs a
  | .bin _ a b => alignFixed rs a && alignFixed rs b
  | _ => true

/-- The attribute state of a `Field` object (`VField`, `SField`,
`RegularField` or base `Field`): everything the embedded methods read or
write.  `bc` is the boundary-condition table `self.bc`; `dtable` is the
derivative table `self.d`, each populated entry holding its accuracy-indexed
`fd` sub-table; `sfdts` holds, per axis, the `dt` expression of the
associated stress field `self.sfields[d]`. -/
structure FieldState where
  kind : FKind
  name : String
  dimension : ℕ
  staggered : List Bool
  indices : List String
  spacing : List String
  order : List ℕ
  bc : List (List (Option (List Eqn)))
  dtable : List (List (Option (List (ℕ × Expr))))
  kernel : Option Expr
  kernelAligned : Option Expr
  dt : Option Expr
  sfdts : List Expr
  direction1 : ℕ
  direction2 : ℕ × ℕ

/-- The field reference data that `Field.align` consults when the field
occurs inside an expression. -/
def FieldState.fref (st : FieldState) : FRef := ⟨st.kind, st.name, st.staggered⟩

/-- The fresh boundary-condition table `[[None]*2 for x in range(dimension+1)]`. -/
def mkBC (dimension : ℕ) : List (List (Option (List Eqn))) :=
  List.replicate (dimension + 1) [none, none]

/-- Read `self.bc[d][side]`. -/
def bcGet (st : FieldState) (d side : ℕ) : Option (List Eqn) :=
  (st.bc.getD d []).getD side none

/-- Assign `self.bc[d][side] = eqs`. -/
def setBC (st : FieldState) (d side : ℕ) (eqs : List Eqn) : FieldState :=
  { st with bc := st.bc.set d ((st.bc.getD d []).set side (some eqs)) }

/-- `Field.set(dimension, staggered)`: store the dimension and the given
staggering and create the fresh boundary-condition table. -/
def Field.set (st : FieldState) (dimension : ℕ) (staggered : List Bool) : FieldState :=
  { st with dimension := dimension, staggered := staggered, bc := mkBC dimension }

/-- `VField.set(dimension, direction)`: staggered in time (index 0) and in
exactly the direction axis, then delegate to `Field.set`. -/
def VField.set (st : FieldState) (dimension direction : ℕ) : FieldState :=
  Field.set { st with direction1 := direction } dimension
    (((List.replicate (dimension + 1) false).set 0 true).set direction true)

/-- `SField.set(dimension, direction)`: an equal direction pair (compression
stress) is unstaggered everywhere; otherwise the two named axes are
staggered, then delegate to `Field.set`. -/
def SField.set (st : FieldState) (dimension : ℕ) (direction : ℕ × ℕ) : FieldState :=
  if direction.1 = direction.2 then
    Field.set { st with direction2 := direction } dimension
      (List.replicate (dimension + 1) false)
  else
    Field.set { st with direction2 := direction } dimension
      (((List.replicate (dimension + 1) false).set direction.1 true).set direction.2 true)

/-- `RegularField.__init__` with a `dimension` keyword argument: it always
passes `staggered=[0, 0, 0]` to the base constructor, which (two keyword
arguments being present) invokes `Field.set` with that fixed staggering. -/
def RegularField.initState (st : FieldState) (dimension : ℕ) : FieldState :=
  Field.set st dimension [false, false, false]

/-- `idx = list(self.indices)`: the plain index symbols as grid indices. -/
def mkIdx (indices : List String) : List SymIdx := indices.map (fun s => ⟨s, 0⟩)

/-- The ghost-cell population loop of the robertsson branch of
`VField.set_free_surface` (`for depth in range(self.order[d]/2-1): ...`):
each pass moves `idx[d]` one grid unit further out (`idx[d] -= (-1)**side`),
forms `Eq(self[idx])` and time-shifts it by `subs(idx[0], idx[0]+1)`. -/
def vRobLoop (fr : FRef) (d : ℕ) (step : ℚ) : List SymIdx → ℕ → List Eqn
  | _, 0 => []
  | idx, n+1 =>
    let idx2 := idx.set d ((idx.getD d ⟨"", 0⟩).add (-step))
    let t0 := idx2.getD 0 ⟨"", 0⟩
    Eqn.substIdx t0 (t0.add 1) ⟨.indexed (.fld fr) idx2, .num 0⟩ ::
      vRobLoop fr d step idx2 n

/-- The first ghost index of the robertsson branch of
`VField.set_free_surface`: `idx[d] = b - (1-side)` when the field is
staggered on axis `d`, else `idx[d] = b - (-1)**side`. -/
def vRobStart (st : FieldState) (d : ℕ) (b : SymIdx) (side : ℕ) : SymIdx :=
  if st.staggered.getD d false then b.add (-((1 : ℚ) - side)) else b.add (-((-1 : ℚ)^side))

/-- The robertsson branch of `VField.set_free_surface`: the ghost index next
to the boundary, the zero-velocity equation `Eq(self[idx])` time-shifted to
`t+1`, followed by the deeper ghost layers. -/
def vRobEqs (st : FieldState) (d : ℕ) (b : SymIdx) (side : ℕ) : List Eqn :=
  let idx := (mkIdx st.indices).set d (vRobStart st d b side)
  let t0 := idx.getD 0 ⟨"", 0⟩
  Eqn.substIdx t0 (t0.add 1) ⟨.indexed (.fld st.fref) idx, .num 0⟩ ::
    vRobLoop st.fref d ((-1 : ℚ)^side) idx (st.order.getD d 0 / 2 - 1)

/-- The levander branch of `VField.set_free_surface`: take the associated
stress field's `dt`, substitute every derivative with its 2nd-order
approximation, build the boundary relation (staggered: `Eq(expr)` at the
real boundary `b - 1/2`; unstaggered: matching condition of the two
half-shifted copies), solve for the ghost value `self[idx]`, align, and
time-shift.  `none` models the exceptions the Python code can raise before
the `bc` assignment (missing `sfields` entry, missing `fd` table entry). -/
def VField.levanderEqs (solveFn : Eqn → Expr → Expr) (fdAcc : DerivAtom → ℕ → Option Expr)
    (st : FieldState) (d : ℕ) (b : SymIdx) (side : ℕ) : Option (List Eqn) :=
  (st.sfdts.get? d).bind (fun fdt =>
    (substFdAll fdAcc 2 fdt).bind (fun expr =>
      let xd : SymIdx := ⟨st.indices.getD d "", 0⟩
      let eqShiftT : Eqn × ℚ × SymIdx :=
        if st.staggered.getD d false then
          (⟨expr, .num 0⟩, hf, b.add (-hf))
        else
          (⟨expr.substIdx xd (xd.add (-hf)), expr.substIdx xd (xd.add hf)⟩, 1, b)
      let idx := (mkIdx st.indices).set d (xd.add (-(((-1 : ℚ)^side) * eqShiftT.2.1)))
      let lhs := Expr.indexed (.fld st.fref) idx
      let rhs := solveFn eqShiftT.1 lhs
      let lhs2 := (lhs.substIdx xd eqShiftT.2.2)
      let rhs2 := align st.dimension st.staggered (rhs.substIdx xd eqShiftT.2.2)
      let t0 := idx.getD 0 ⟨"", 0⟩
      some [⟨lhs2.substIdx t0 (t0.add 1), rhs2.substIdx t0 (t0.add 1)⟩]))

/-- `VField.set_free_surface(d, b, side, algo)`: dispatch on the algorithm
name; an unknown name raises `ValueError` before any state change. -/
def VField.setFreeSurface (solveFn : Eqn → Expr → Expr) (fdAcc : DerivAtom → ℕ → Option Expr)
    (st : FieldState) (d : ℕ) (b : SymIdx) (side : ℕ) (algo : String) :
    FieldState × Option String :=
  if algo = "levander" then
    match VField.levanderEqs solveFn fdAcc st d b side with
    | some eqs => (setBC st d side eqs, none)
    | none => (st, some "error")
  else if algo = "robertsson" then
    (setBC st d side (vRobEqs st d b side), none)
  else
    (st, some "Unknown boundary condition algorithm")

/-- The ghost-cell population loop of the antisymmetry branch of
`SField.set_free_surface`: `idx[d]` moves one unit out, `idx2[d]` one unit
in, each pass storing the time-shifted `Eq(self[idx], -self[idx2])`. -/
def sRobLoop (fr : FRef) (d : ℕ) (step : ℚ) : List SymIdx → List SymIdx → ℕ → List Eqn
  | _, _, 0 => []
  | idx, idx2, n+1 =>
    let ia := idx.set d ((idx.getD d ⟨"", 0⟩).add (-step))
    let ib := idx2.set d ((idx2.getD d ⟨"", 0⟩).add step)
    let t0 := ia.getD 0 ⟨"", 0⟩
    Eqn.substIdx t0 (t0.add 1)
        ⟨.indexed (.fld fr) ia, .bin "Mul" (.num (-1)) (.indexed (.fld fr) ib)⟩ ::
      sRobLoop fr d step ia ib n

/-- The antisymmetry branch of `SField.set_free_surface` (reached for every
algorithm when `d` is one of the field's direction axes): unstaggered fields
zero the boundary cell itself (`Eq(self[idx])` at `idx[d] = b`); staggered
fields mirror across the boundary (`Eq(self[idx], -self[idx2])` with
`idx[d] = b-(1-side)`, `idx2[d] = idx[d]+(-1)**side`); then the deeper ghost
layers, all time-shifted to `t+1`. -/
def sRobEqs (st : FieldState) (d : ℕ) (b : SymIdx) (side : ℕ) : List Eqn :=
  let idxs := mkIdx st.indices
  if st.staggered.getD d false then
    let ia := idxs.set d (b.add (-((1 : ℚ) - side)))
    let ib := idxs.set d ((b.add (-((1 : ℚ) - side))).add ((-1 : ℚ)^side))
    let t0 := ia.getD 0 ⟨"", 0⟩
    Eqn.substIdx t0 (t0.add 1)
        ⟨.indexed (.fld st.fref) ia, .bin "Mul" (.num (-1)) (.indexed (.fld st.fref) ib)⟩ ::
      sRobLoop st.fref d ((-1 : ℚ)^side) ia ib (st.order.getD d 0 / 2 - 1)
  else
    let ia := idxs.set d b
    let ib := idxs.set d b
    let t0 := ia.getD 0 ⟨"", 0⟩
    Eqn.substIdx t0 (t0.add 1) ⟨.indexed (.fld st.fref) ia, .num 0⟩ ::
      sRobLoop st.fref d ((-1 : ℚ)^side) ia ib (st.order.getD d 0 / 2 - 1)

/-- The normal-stress levander branch of `SField.set_free_surface` (reached
when `d` is not a direction axis, the algorithm is levander and the
direction pair is equal): replace the boundary-normal derivative of
`self.dt` using the companion stress field's relation solved for it,
substitute the remaining derivatives at 4th accuracy, equate to the stored
2nd-accuracy time derivative `self.d[0][1].fd[2]`, specialise to the
boundary, solve for the half-time-step value, align, and shift by a half
time step.  `none` models the exceptions the Python code can raise before
the `bc` assignment (unset `dt`, no derivative in `self.dt` over the
boundary axis, missing `sfields` entry, missing table entries). -/
def SField.levanderNormalEqs (solveFn : Eqn → Expr → Expr)
    (fdAcc : DerivAtom → ℕ → Option Expr) (st : FieldState) (d : ℕ) (b : SymIdx) :
    Option (List Eqn) :=
  st.dt.bind (fun dtE =>
    (dtE.collectDerivs.find? (fun a => a.var = st.indices.getD d "")).bind (fun deriv0 =>
      (st.sfdts.get? d).bind (fun expr2 =>
        let derivSub := solveFn ⟨expr2, .num 0⟩ (.deriv deriv0)
        (substFdAll fdAcc 4 (Expr.substDeriv deriv0 derivSub dtE)).bind (fun exprB =>
          ((st.dtable.getD 0 []).getD 1 none).bind (fun fdl =>
            (fdl.lookup 2).bind (fun d01 =>
              let xd : SymIdx := ⟨st.indices.getD d "", 0⟩
              let t0 : SymIdx := ⟨st.indices.getD 0 "", 0⟩
              let eq := Eqn.substIdx xd b ⟨d01, exprB⟩
              let idx := ((mkIdx st.indices).set 0 (t0.add hf)).set d b
              let lhs := Expr.indexed (.fld st.fref) idx
              let rhs := align st.dimension st.staggered (solveFn eq lhs)
              some [⟨lhs.substIdx t0 (t0.add hf), rhs.substIdx t0 (t0.add hf)⟩]))))))

/-- `SField.set_free_surface(d, b, side, algo)`: when `d` is not a direction
axis, either store an empty sequence (shear stress, or any non-levander
algorithm) or run the normal-stress levander coupling; otherwise run the
antisymmetry branch, which applies to every algorithm.  Note the method
never validates the algorithm name. -/
def SField.setFreeSurface (solveFn : Eqn → Expr → Expr) (fdAcc : DerivAtom → ℕ → Option Expr)
    (st : FieldState) (d : ℕ) (b : SymIdx) (side : ℕ) (algo : String) :
    FieldState × Option String :=
  if d ≠ st.direction2.1 ∧ d ≠ st.direction2.2 then
    if ¬(algo = "levander") ∨ ¬(st.direction2.1 = st.direction2.2) then
      (setBC st d side [], none)
    else
      match SField.levanderNormalEqs solveFn fdAcc st d b with
      | some eqs => (setBC st d side eqs, none)
      | none => (st, some "error")
  else
    (setBC st d side (sRobEqs st d b side), none)

/-- A Python keyword-argument value as used by the constructors of
`fields.py`: a dimension, a staggering list, or an index-symbol list. -/
inductive PyVal
  | natV (n : ℕ)
  | boolsV (l : List Bool)
  | symsV (l : List String)
deriving DecidableEq

/-- Look up a keyword argument holding a number. -/
def kwNat (kwargs : List (String × PyVal)) (k : String) : Option ℕ :=
  match kwargs.lookup k with
  | some (.natV n) => some n
  | _ => none

/-- Look up a keyword argument holding a boolean list. -/
def kwBools (kwargs : List (String × PyVal)) (k : String) : Option (List Bool) :=
  match kwargs.lookup k with
  | some (.boolsV l) => some l
  | _ => none

/-- Look up a keyword argument holding a symbol list. -/
def kwSyms (kwargs : List (String × PyVal)) (k : String) : Option (List String) :=
  match kwargs.lookup k with
  | some (.symsV l) => some l
  | _ => none

/-- The attributes a `Field` carries after construction: `none` entries are
attributes that were never assigned (reading them raises
`AttributeError`). -/
structure PyAttrs where
  dimension : Option ℕ
  staggered : Option (List Bool)
  bc : Option (List (List (Option (List Eqn))))

/-- `self.set(**kwargs)` for the base `Field`: requires exactly the keyword
arguments `dimension` and `staggered` (anything else raises `TypeError`
before any attribute is assigned). -/
def Field.applySet (kwargs : List (String × PyVal)) : PyAttrs × Option String :=
  match kwNat kwargs "dimension", kwBools kwargs "staggered" with
  | some dim, some stag =>
      if kwargs.length = 2 then (⟨some dim, some stag, some (mkBC dim)⟩, none)
      else (⟨none, none, none⟩, some "TypeError")
  | _, _ => (⟨none, none, none⟩, some "TypeError")

/-- `Field.__init__(*args, **kwargs)`: invokes `self.set(**kwargs)` only when
strictly more than one keyword argument is supplied (the guard protecting
against sympy re-invoking the constructor).  The middle component records
whether `set` was invoked. -/
def Field.initAttrs (kwargs : List (String × PyVal)) : PyAttrs × Bool × Option String :=
  if kwargs.length > 1 then
    ((Field.applySet kwargs).1, true, (Field.applySet kwargs).2)
  else (⟨none, none, none⟩, false, none)

/-- The attributes a `Media` carries after construction. -/
structure MediaAttrs where
  dimension : Option ℕ
  staggered : Option (List Bool)
  index : Option (List String)

/-- `self.set(**kwargs)` for `Media`: requires exactly the keyword arguments
`dimension`, `staggered` and `index`. -/
def Media.applySet (kwargs : List (String × PyVal)) : MediaAttrs × Option String :=
  match kwNat kwargs "dimension", kwBools kwargs "staggered", kwSyms kwargs "index" with
  | some dim, some stag, some idx =>
      if kwargs.length = 3 then (⟨some dim, some stag, some idx⟩, none)
      else (⟨none, none, none⟩, some "TypeError")
  | _, _, _ => (⟨none, none, none⟩, some "TypeError")

/-- `Media.__init__(*args, **kwargs)`: invokes `self.set(**kwargs)` whenever
at least one keyword argument is supplied. -/
def Media.initAttrs (kwargs : List (String × PyVal)) : MediaAttrs × Bool × Option String :=
  if kwargs.length > 0 then
    ((Media.applySet kwargs).1, true, (Media.applySet kwargs).2)
  else (⟨none, none, none⟩, false, none)

/-- Equality of every field attribute except the boundary-condition table:
the frame of `set_free_surface`. -/
def sameAttrs (a b : FieldState) : Prop :=
  a.kind = b.kind ∧ a.name = b.name ∧ a.dimension = b.dimension ∧
  a.staggered = b.staggered ∧ a.indices = b.indices ∧ a.spacing = b.spacing ∧
  a.order = b.order ∧ a.dtable = b.dtable ∧ a.kernel = b.kernel ∧
  a.kernelAligned = b.kernelAligned ∧ a.dt = b.dt ∧ a.sfdts = b.sfdts ∧
  a.direction1 = b.direction1 ∧ a.direction2 = b.direction2

/-- The index list at the top node of an expression (a discriminating
projection used to separate expressions). -/
def Expr.topIdx : Expr → List SymIdx
  | .indexed _ l => l
  | _ => []

/-- A fresh, unconfigured field object, used to build the example states. -/
def blankState : FieldState :=
  { kind := FKind.plain, name := "F", dimension := 0, staggered := [], indices := [],
    spacing := [], order := [], bc := [], dtable := [], kernel := none,
    kernelAligned := none, dt := none, sfdts := [], direction1 := 0, direction2 := (0, 0) }

/-- The 3D shear stress field `Txy` of a (2,4) scheme, fully configured:
`SField.set(3, (1,2))` gives staggering `[False, True, True, False]`. -/
def txyState : FieldState :=
  { blankState with
    kind := FKind.str
    name := "Txy"
    dimension := 3
    staggered := [false, true, true, false]
    indices := ["t", "x", "y", "z"]
    spacing := ["dt", "dx", "dy", "dz"]
    order := [2, 4, 4, 4]
    bc := mkBC 3
    direction2 := (1, 2) }

/-- The 3D velocity field `Vx` of a (2,4) scheme, fully configured and with
associated stress fields whose `dt` is a derivative atom. -/
def vxState : FieldState :=
  { blankState with
    kind := FKind.vel
    name := "Vx"
    dimension := 3
    staggered := [true, true, false, false]
    indices := ["t", "x", "y", "z"]
    spacing := ["dt", "dx", "dy", "dz"]
    order := [2, 4, 4, 4]
    bc := mkBC 3
    direction1 := 1
    sfdts := [.deriv ⟨"dTxx", "t", 1⟩, .deriv ⟨"dTxx", "t", 1⟩,
              .deriv ⟨"dTxy", "t", 1⟩, .deriv ⟨"dTxz", "t", 1⟩] }

/-- A trivial external solver used to instantiate the generators. -/
def solve0 : Eqn → Expr → Expr := fun _ _ => .num 0

/-- A trivial external approximation table used to instantiate the
generators. -/
def fdAcc0 : DerivAtom → ℕ → Option Expr := fun _ _ => some (.num 0)

/-- The media reference `rho[x, y, z]`. -/
def rhoRef : Expr := .indexed (.media ⟨"rho"⟩) [⟨"x", 0⟩, ⟨"y", 0⟩, ⟨"z", 0⟩]

/-- The field reference `Vx[t, x, y, z]` of the velocity field `Vx`. -/
def vxRef : Expr :=
  .indexed (.fld ⟨FKind.vel, "Vx", [true, true, false, false]⟩)
    [⟨"t", 0⟩, ⟨"x", 0⟩, ⟨"y", 0⟩, ⟨"z", 0⟩]

/-- Spec-side description of the robertsson ghost equations of a velocity
field: one initial zero-velocity equation at the start ghost index, then
`order[d]/2 - 1` further layers whose axis-`d` index steps one grid unit
further out each time (`- (-1)**side * (i+1)`), each equation time-shifted
from `t` to `t+1`. -/
def vRobSpec (st : FieldState) (d : ℕ) (b : SymIdx) (side : ℕ) : List Eqn :=
  Eqn.substIdx ⟨st.indices.getD 0 "", 0⟩ (SymIdx.add ⟨st.indices.getD 0 "", 0⟩ 1)
      ⟨.indexed (.fld st.fref) ((mkIdx st.indices).set d (vRobStart st d b side)), .num 0⟩ ::
    (List.range (st.order.getD d 0 / 2 - 1)).map (fun i : ℕ =>
      Eqn.substIdx ⟨st.indices.getD 0 "", 0⟩ (SymIdx.add ⟨st.indices.getD 0 "", 0⟩ 1)
        ⟨.indexed (.fld st.fref)
          ((mkIdx st.indices).set d
            ((vRobStart st d b side).add (-(((-1 : ℚ)^side) * ((i : ℚ) + 1))))),
         .num 0⟩)

/-- Spec-side description of the antisymmetry ghost equations of a stress
field whose axis `d` is one of its direction axes: for a staggered field the
mirror equation `T[b-(1-side)] = -T[b-(1-side)+(-1)**side]` and its deeper
layers (ghost index one unit further out, mirrored index one unit further
in, per layer); for an unstaggered field the zero equation at the boundary
cell `b` and the mirrored deeper layers; every equation time-shifted from
`t` to `t+1`. -/
def sRobSpec (st : FieldState) (d : ℕ) (b : SymIdx) (side : ℕ) : List Eqn :=
  if st.staggered.getD d false then
    Eqn.substIdx ⟨st.indices.getD 0 "", 0⟩ (SymIdx.add ⟨st.indices.getD 0 "", 0⟩ 1)
        ⟨.indexed (.fld st.fref) ((mkIdx st.indices).set d (b.add (-((1 : ℚ) - side)))),
         .bin "Mul" (.num (-1)) (.indexed (.fld st.fref)
           ((mkIdx st.indices).set d ((b.add (-((1 : ℚ) - side))).add ((-1 : ℚ)^side))))⟩ ::
      (List.range (st.order.getD d 0 / 2 - 1)).map (fun i : ℕ =>
        Eqn.substIdx ⟨st.indices.getD 0 "", 0⟩ (SymIdx.add ⟨st.indices.getD 0 "", 0⟩ 1)
          ⟨.indexed (.fld st.fref)
            ((mkIdx st.indices).set d
              ((b.add (-((1 : ℚ) - side))).add (-(((-1 : ℚ)^side) * ((i : ℚ) + 1))))),
           .bin "Mul" (.num (-1)) (.indexed (.fld st.fref)
            ((mkIdx st.indices).set d
              (((b.add (-((1 : ℚ) - side))).add ((-1 : ℚ)^side)).add
                (((-1 : ℚ)^side) * ((i : ℚ) + 1)))))⟩)
  else
    Eqn.substIdx ⟨st.indices.getD 0 "", 0⟩ (SymIdx.add ⟨st.indices.getD 0 "", 0⟩ 1)
        ⟨.indexed (.fld st.fref) ((mkIdx st.indices).set d b), .num 0⟩ ::
      (List.range (st.order.getD d 0 / 2 - 1)).map (fun i : ℕ =>
        Eqn.substIdx ⟨st.indices.getD 0 "", 0⟩ (SymIdx.add ⟨st.indices.getD 0 "", 0⟩ 1)
          ⟨.indexed (.fld st.fref)
            ((mkIdx st.indices).set d (b.add (-(((-1 : ℚ)^side) * ((i : ℚ) + 1))))),
           .bin "Mul" (.num (-1)) (.indexed (.fld st.fref)
            ((mkIdx st.indices).set d (b.add (((-1 : ℚ)^side) * ((i : ℚ) + 1)))))⟩)

theorem SymIdx.add_zero (i : SymIdx) : i.add 0 = i := by
  simp [SymIdx.add]

theorem SymIdx.add_add (i : SymIdx) (a b : ℚ) : (i.add a).add b = i.add (a + b) := by
  simp [SymIdx.add, add_assoc]

theorem getD_set_self {α : Type} (l : List α) {i : ℕ} (v d : α) (h : i < l.length) :
    (l.set i v).getD i d = v := by
  simp [List.getD_eq_getElem?_getD, List.getElem?_set_self h]

theorem getD_set_ne {α : Type} (l : List α) {i j : ℕ} (v d : α) (h : i ≠ j) :
    (l.set i v).getD j d = l.getD j d := by
  simp [List.getD_eq_getElem?_getD, List.getElem?_set_ne h]

theorem getD_replicate {α : Type} {n i : ℕ} (a d : α) (h : i < n) :
    (List.replicate n a).getD i d = a := by
  simp [List.getD_eq_getElem?_getD, List.getElem?_replicate, h]

theorem length_mkIdx (l : List String) : (mkIdx l).length = l.length := by
  simp [mkIdx]

theorem getD_mkIdx (l : List String) {i : ℕ} (h : i < l.length) :
    (mkIdx l).getD i ⟨"", 0⟩ = ⟨l.getD i "", 0⟩ := by
  simp [mkIdx, List.getD_eq_getElem?_getD, List.getElem?_eq_getElem h]

theorem bcGet_setBC_self (st : FieldState) {d side : ℕ} (eqs : List Eqn)
    (hd : d < st.bc.length) (hs : side < (st.bc.getD d []).length) :
    bcGet (setBC st d side eqs) d side = some eqs := by
  simp only [bcGet, setBC]
  rw [getD_set_self _ _ _ hd, getD_set_self _ _ _ hs]

theorem bcGet_setBC_ne (st : FieldState) {d side d2 s2 : ℕ} (eqs : List Eqn)
    (h : ¬(d2 = d ∧ s2 = side)) :
    bcGet (setBC st d side eqs) d2 s2 = bcGet st d2 s2 := by
  by_cases hd : d2 = d
  · subst hd
    have hs : side ≠ s2 := fun he => h ⟨rfl, he.symm⟩
    by_cases hlen : d2 < st.bc.length
    · simp only [bcGet, setBC]
      rw [getD_set_self _ _ _ hlen, getD_set_ne _ _ _ hs]
    · simp only [bcGet, setBC]
      rw [List.set_eq_of_length_le (Nat.le_of_not_lt hlen)]
  · have hne : d ≠ d2 := fun he => hd he.symm
    simp only [bcGet, setBC]
    rw [getD_set_ne _ _ _ hne]

theorem sameAttrs_setBC (st : FieldState) (d side : ℕ) (eqs : List Eqn) :
    sameAttrs (setBC st d side eqs) st :=
  ⟨rfl, rfl, rfl, rfl, rfl, rfl, rfl, rfl, rfl, rfl, rfl, rfl, rfl, rfl⟩

theorem vRobLoop_length (fr : FRef) (d : ℕ) (step : ℚ) :
    ∀ (n : ℕ) (idx : List SymIdx), (vRobLoop fr d step idx n).length = n := by
  intro n
  induction n with
  | zero => intro idx; rfl
  | succ m ih => intro idx; rw [vRobLoop]; simp [ih]

theorem sRobLoop_length (fr : FRef) (d : ℕ) (step : ℚ) :
    ∀ (n : ℕ) (idx idx2 : List SymIdx), (sRobLoop fr d step idx idx2 n).length = n := by
  intro n
  induction n with
  | zero => intro idx idx2; rfl
  | succ m ih => intro idx idx2; rw [sRobLoop]; simp [ih]

theorem vRobLoop_closed (fr : FRef) (d : ℕ) (step : ℚ) :
    ∀ (n : ℕ) (idx : List SymIdx), d ≠ 0 → d < idx.length →
      vRobLoop fr d step idx n = (List.range n).map (fun i : ℕ =>
        Eqn.substIdx (idx.getD 0 ⟨"", 0⟩) ((idx.getD 0 ⟨"", 0⟩).add 1)
          ⟨.indexed (.fld fr)
            (idx.set d ((idx.getD d ⟨"", 0⟩).add (-(step * ((i : ℚ) + 1))))), .num 0⟩) := by
  intro n
  induction n with
  | zero => intro idx _ _; rfl
  | succ m ih =>
      intro idx hd0 hd
      rw [vRobLoop, List.range_succ_eq_map, List.map_cons]
      have hlen : d < (idx.set d ((idx.getD d ⟨"", 0⟩).add (-step))).length := by
        simpa using hd
      rw [ih _ hd0 hlen]
      congr 1
      case e_head =>
        rw [getD_set_ne _ _ _ hd0]
        congr 2
        simp [SymIdx.add]
      case e_tail =>
        rw [List.map_map]
        apply List.map_congr_left
        intro a _
        simp only [Function.comp]
        rw [List.set_set, getD_set_ne _ _ _ hd0,
          getD_set_self _ _ _ hd, SymIdx.add_add]
        congr 3
        push_cast
        ring_nf

theorem sRobLoop_closed (fr : FRef) (d : ℕ) (step : ℚ) :
    ∀ (n : ℕ) (idx idx2 : List SymIdx), d ≠ 0 → d < idx.length → d < idx2.length →
      sRobLoop fr d step idx idx2 n = (List.range n).map (fun i : ℕ =>
        Eqn.substIdx (idx.getD 0 ⟨"", 0⟩) ((idx.getD 0 ⟨"", 0⟩).add 1)
          ⟨.indexed (.fld fr)
            (idx.set d ((idx.getD d ⟨"", 0⟩).add (-(step * ((i : ℚ) + 1))))),
           .bin "Mul" (.num (-1)) (.indexed (.fld fr)
            (idx2.set d ((idx2.getD d ⟨"", 0⟩).add (step * ((i : ℚ) + 1)))))⟩) := by
  intro n
  induction n with
  | zero => intro idx idx2 _ _ _; rfl
  | succ m ih =>
      intro idx idx2 hd0 hda hdb
      rw [sRobLoop, List.range_succ_eq_map, List.map_cons]
      have hla : d < (idx.set d ((idx.getD d ⟨"", 0⟩).add (-step))).length := by
        simpa using hda
      have hlb : d < (idx2.set d ((idx2.getD d ⟨"", 0⟩).add step)).length := by
        simpa using hdb
      rw [ih _ _ hd0 hla hlb]
      congr 1
      case e_head =>
        rw [getD_set_ne _ _ _ hd0]
        congr 2
        · congr 2
          simp [SymIdx.add]
        · congr 3
          simp [SymIdx.add]
      case e_tail =>
        rw [List.map_map]
        apply List.map_congr_left
        intro a _
        simp only [Function.comp]
        rw [List.set_set, List.set_set, getD_set_ne _ _ _ hd0,
          getD_set_self _ _ _ hda, getD_set_self _ _ _ hdb, SymIdx.add_add, SymIdx.add_add]
        congr 3
        · congr 2
          push_cast
          ring_nf
        · congr 3
          push_cast
          ring_nf

theorem zipShiftFrom_eq_spec (rs bs : List Bool) :
    ∀ (k : ℕ) (l : List SymIdx),
      zipShiftFrom rs bs k l =
        mapIdxFrom (fun j i => i.add (specShift (rs.getD j false) (bs.getD j false))) k l := by
  intro k l
  induction l generalizing k with
  | nil => rfl
  | cons i l ih =>
      rw [zipShiftFrom, mapIdxFrom, ih]
      congr 1
      by_cases h : rs.getD k false = bs.getD k false
      · rw [if_pos h, specShift, if_pos h, SymIdx.add_zero]
      · by_cases hr : rs.getD k false
        · rw [if_neg h, if_pos hr, specShift, if_neg h, if_pos hr]
        · rw [if_neg h, if_neg hr, specShift, if_neg h, if_neg hr]

theorem mapIdxFrom_getElem? (f : ℕ → SymIdx → SymIdx) :
    ∀ (l : List SymIdx) (k p : ℕ),
      (mapIdxFrom f k l)[p]? = (l[p]?).map (f (k + p)) := by
  intro l
  induction l with
  | nil => intro k p; simp [mapIdxFrom]
  | cons i l ih =>
      intro k p
      cases p with
      | zero => simp [mapIdxFrom]
      | succ p =>
          rw [mapIdxFrom]
          simp only [List.getElem?_cons_succ, ih]
          have hk : k + 1 + p = k + (p + 1) := by omega
          rw [hk]

theorem mediaAlignGo_getElem? (stag : List Bool) :
    ∀ (n d p : ℕ) (cur : List SymIdx),
      (mediaAlignGo stag d n cur)[p]? = (cur[p]?).map
        (fun i => if d ≤ p ∧ p < d + n ∧ stag.getD (p+1) false then i.add hf else i) := by
  intro n
  induction n with
  | zero =>
      intro d p cur
      rw [mediaAlignGo]
      cases h : cur[p]? with
      | none => rfl
      | some i =>
          rw [Option.map_some' _ _]
          rw [if_neg]
          rintro ⟨h1, h2, _⟩
          omega
  | succ m ih =>
      intro d p cur
      by_cases hp : p = d
      · subst hp
        rw [mediaAlignGo, ih]
        have hc1 : ¬(p + 1 ≤ p ∧ p < p + 1 + m ∧ stag.getD (p+1) false) := by
          rintro ⟨h1, _, _⟩
          omega
        by_cases hs : stag.getD (p+1) false
        · rw [if_pos hs]
          by_cases hl : p < cur.length
          · have hg : cur.getD p ⟨"", 0⟩ = cur[p] := by
              simp [List.getD_eq_getElem?_getD, List.getElem?_eq_getElem hl]
            have hc2 : p ≤ p ∧ p < p + (m + 1) ∧ stag.getD (p+1) false :=
              ⟨le_refl p, by omega, hs⟩
            rw [List.getElem?_set_self hl, Option.map_some' _ _, if_neg hc1,
              List.getElem?_eq_getElem hl, Option.map_some' _ _, if_pos hc2, hg]
          · have h1 : cur[p]? = none := List.getElem?_eq_none (Nat.le_of_not_lt hl)
            have h2 : (cur.set p ((cur.getD p ⟨"", 0⟩).add hf))[p]? = none :=
              List.getElem?_eq_none (by simpa using Nat.le_of_not_lt hl)
            rw [h1, h2]
            rfl
        · rw [if_neg hs]
          have hc2 : ¬(p ≤ p ∧ p < p + (m + 1) ∧ stag.getD (p+1) false) := by
            rintro ⟨_, _, h3⟩
            exact hs h3
          cases h : cur[p]? with
          | none => rfl
          | some i => rw [Option.map_some' _ _, Option.map_some' _ _, if_neg hc1, if_neg hc2]
      · have hiff : (d + 1 ≤ p ∧ p < d + 1 + m ∧ stag.getD (p+1) false) ↔
            (d ≤ p ∧ p < d + (m + 1) ∧ stag.getD (p+1) false) := by
          constructor
          · rintro ⟨h1, h2, h3⟩
            exact ⟨by omega, by omega, h3⟩
          · rintro ⟨h1, h2, h3⟩
            exact ⟨by omega, by omega, h3⟩
        have hset : ∀ v : SymIdx, (cur.set d v)[p]? = cur[p]? := fun v =>
          List.getElem?_set_ne (fun he => hp he.symm)
        rw [mediaAlignGo]
        by_cases hs : stag.getD (d+1) false
        · rw [if_pos hs, ih, hset]
          cases h : cur[p]? with
          | none => rfl
          | some i =>
              rw [Option.map_some' _ _, Option.map_some' _ _, if_congr hiff rfl rfl]
        · rw [if_neg hs, ih]
          cases h : cur[p]? with
          | none => rfl
          | some i =>
              rw [Option.map_some' _ _, Option.map_some' _ _, if_congr hiff rfl rfl]

theorem mediaAlign_eq_spec (dim : ℕ) (stag : List Bool) (l : List SymIdx) :
    mediaAlign dim stag l = specMediaIdx dim stag l := by
  apply List.ext_getElem?
  intro p
  rw [mediaAlign, mediaAlignGo_getElem?, specMediaIdx, mapIdxFrom_getElem?]
  have hiff : (0 ≤ p ∧ p < 0 + dim ∧ stag.getD (p+1) false) ↔
      (p < dim ∧ stag.getD (p+1) false) := by
    constructor
    · rintro ⟨_, h2, h3⟩
      exact ⟨by omega, h3⟩
    · rintro ⟨h2, h3⟩
      exact ⟨Nat.zero_le p, by omega, h3⟩
  have h0 : 0 + p = p := by omega
  rw [h0]
  cases h : l[p]? with
  | none => rfl
  | some i => rw [Option.map_some' _ _, Option.map_some' _ _, if_congr hiff rfl rfl]


theorem zipShiftFrom_id (rs bs : List Bool) :
    ∀ (k : ℕ) (l : List SymIdx), stagMatchFrom rs bs k l = true →
      zipShiftFrom rs bs k l = l := by
  intro k l
  induction l generalizing k with
  | nil => intro _; rfl
  | cons i l ih =>
      intro h
      rw [stagMatchFrom, Bool.and_eq_true, beq_iff_eq] at h
      rw [zipShiftFrom, if_pos h.1, ih (k+1) h.2]

theorem align_noop (dim : ℕ) (rs : List Bool) :
    ∀ e : Expr, alignFixed rs e = true → align dim rs e = e := by
  intro e
  induction e with
  | symOff i => intro _; rfl
  | num q => intro _; rfl
  | deriv a => intro _; rfl
  | indexed b l =>
      intro h
      cases b with
      | media m => rw [alignFixed] at h; exact absurd h (by simp)
      | fld f =>
          rw [align]
          by_cases hk : f.kind = FKind.vel ∨ f.kind = FKind.str
          · rw [if_pos hk]
            rw [alignFixed, if_pos hk] at h
            rw [zipShiftFrom_id rs f.staggered 0 l h]
          · rw [if_neg hk]
      | other nm => rfl
  | un op a ih =>
      intro h
      rw [alignFixed] at h
      rw [align, ih h]
  | bin op a b iha ihb =>
      intro h
      rw [alignFixed, Bool.and_eq_true] at h
      rw [align, iha h.1, ihb h.2]

/-- Projection fact: `Field.set` installs exactly the fresh table. -/
theorem Field_set_bc (st : FieldState) (dim : ℕ) (stag : List Bool) :
    (Field.set st dim stag).bc = mkBC dim := rfl

/-- C2 (corrected): after `Field.set` the boundary-condition table always has
`dimension+1` rows of two `None` entries; `VField.set` and `SField.set`
always produce a staggering of length `dimension+1`; but the base `Field.set`
stores whatever staggering the caller passes, and `RegularField` always
passes the fixed list `[0, 0, 0]`, so for those variants the length invariant
holds only when the supplied staggering happens to have length
`dimension+1` (for `RegularField`, only when `dimension = 2`). -/
theorem C2_amended :
    (∀ (st : FieldState) (dim : ℕ) (stag : List Bool),
      (Field.set st dim stag).bc = mkBC dim ∧
      (Field.set st dim stag).bc.length = dim + 1 ∧
      (∀ row ∈ (Field.set st dim stag).bc, row = [none, none]) ∧
      (Field.set st dim stag).staggered = stag) ∧
    (∀ (st : FieldState) (dim dir : ℕ), dir ≤ dim →
      (VField.set st dim dir).staggered.length = dim + 1) ∧
    (∀ (st : FieldState) (dim : ℕ) (dirp : ℕ × ℕ), dirp.1 ≤ dim → dirp.2 ≤ dim →
      (SField.set st dim dirp).staggered.length = dim + 1) ∧
    (∀ (st : FieldState) (dim : ℕ),
      (RegularField.initState st dim).staggered = [false, false, false]) := by
  refine ⟨fun st dim stag => ⟨rfl, ?_, ?_, rfl⟩, fun st dim dir _ => ?_,
    fun st dim dirp _ _ => ?_, fun st dim => rfl⟩
  · show (mkBC dim).length = dim + 1
    rw [mkBC, List.length_replicate]
  · intro row hrow
    exact List.eq_of_mem_replicate hrow
  · show (((List.replicate (dim + 1) false).set 0 true).set dir true).length = dim + 1
    simp
  · rw [SField.set]
    by_cases heq : dirp.1 = dirp.2
    · rw [if_pos heq]
      show (List.replicate (dim + 1) false).length = dim + 1
      simp
    · rw [if_neg heq]
      show (((List.replicate (dim + 1) false).set dirp.1 true).set dirp.2 true).length =
        dim + 1
      simp

/-- C2 counterexample: `RegularField(name, dimension=3)` calls `Field.set`
with the fixed staggering `[0, 0, 0]` of length 3, not `dimension+1 = 4`. -/
theorem C2_counterexample :
    ¬((RegularField.initState blankState 3).staggered.length =
      (RegularField.initState blankState 3).dimension + 1) := by decide

/-- C2 witness: the amended invariant at concrete fields. -/
theorem C2_witness :
    (VField.set blankState 3 1).staggered.length = 3 + 1 ∧
    (SField.set blankState 3 (1, 2)).staggered.length = 3 + 1 :=
  ⟨C2_amended.2.1 blankState 3 1 (by decide),
   C2_amended.2.2.1 blankState 3 (1, 2) (by decide) (by decide)⟩

/-- C6 (confirmed): after `VField.set(dimension, direction)` the staggering
is `True` on the time axis, and on each spatial axis `k` with
`1 ≤ k ≤ dimension` it is `True` exactly when `k = direction`. -/
theorem C6_vfield_staggering (st : FieldState) (dim dir : ℕ) (hdir : dir ≤ dim) :
    (VField.set st dim dir).staggered.getD 0 false = true ∧
    (∀ k, 1 ≤ k → k ≤ dim →
      ((VField.set st dim dir).staggered.getD k false = true ↔ k = dir)) := by
  have hstag : (VField.set st dim dir).staggered =
      ((List.replicate (dim + 1) false).set 0 true).set dir true := rfl
  constructor
  · rw [hstag]
    by_cases h0 : dir = 0
    · subst h0
      rw [getD_set_self]
      simp
    · rw [getD_set_ne _ _ _ h0, getD_set_self]
      simp
  · intro k h1 h2
    rw [hstag]
    by_cases hk : k = dir
    · subst hk
      rw [getD_set_self]
      · simp
      · simp
        omega
    · rw [getD_set_ne _ _ _ (fun he => hk he.symm)]
      have hk0 : (0 : ℕ) ≠ k := by omega
      rw [getD_set_ne _ _ _ hk0, getD_replicate _ _ (by omega)]
      simp [hk]

/-- C6 witness: `Vx = VField.set(3, 1)` staggering at concrete axes. -/
theorem C6_witness :
    (VField.set blankState 3 1).staggered.getD 0 false = true ∧
    ((VField.set blankState 3 1).staggered.getD 2 false = true ↔ 2 = 1) :=
  ⟨(C6_vfield_staggering blankState 3 1 (by decide)).1,
   (C6_vfield_staggering blankState 3 1 (by decide)).2 2 (by decide) (by decide)⟩

/-- C7 (confirmed): after `SField.set(dimension, direction)` with an equal
direction pair every staggering entry is `False`; with distinct (valid,
nonzero) axes the staggering is `True` exactly on the two named axes and
`False` elsewhere, the time axis included. -/
theorem C7_sfield_staggering (st : FieldState) (dim : ℕ) (dirp : ℕ × ℕ)
    (h11 : 1 ≤ dirp.1) (h12 : dirp.1 ≤ dim) (h21 : 1 ≤ dirp.2) (h22 : dirp.2 ≤ dim) :
    (dirp.1 = dirp.2 →
      ∀ k, k ≤ dim → (SField.set st dim dirp).staggered.getD k false = false) ∧
    (dirp.1 ≠ dirp.2 →
      (SField.set st dim dirp).staggered.getD 0 false = false ∧
      (∀ k, k ≤ dim →
        ((SField.set st dim dirp).staggered.getD k false = true ↔
          (k = dirp.1 ∨ k = dirp.2)))) := by
  constructor
  · intro heq k hk
    have hstag : (SField.set st dim dirp).staggered = List.replicate (dim + 1) false := by
      rw [SField.set, if_pos heq]
      rfl
    rw [hstag, getD_replicate _ _ (by omega)]
  · intro hne
    have hstag : (SField.set st dim dirp).staggered =
        ((List.replicate (dim + 1) false).set dirp.1 true).set dirp.2 true := by
      rw [SField.set, if_neg hne]
      rfl
    constructor
    · rw [hstag]
      have ha : dirp.2 ≠ 0 := by omega
      have hb : dirp.1 ≠ 0 := by omega
      rw [getD_set_ne _ _ _ ha, getD_set_ne _ _ _ hb, getD_replicate _ _ (by omega)]
    · intro k hk
      rw [hstag]
      by_cases hk2 : k = dirp.2
      · subst hk2
        rw [getD_set_self]
        · simp
        · simp
          omega
      · rw [getD_set_ne _ _ _ (fun he => hk2 he.symm)]
        by_cases hk1 : k = dirp.1
        · subst hk1
          rw [getD_set_self]
          · simp
          · simp
            omega
        · rw [getD_set_ne _ _ _ (fun he => hk1 he.symm),
            getD_replicate _ _ (by omega)]
          simp [hk1, hk2]

/-- C7 witness: `Txx = SField.set(3, (1,1))` and `Txy = SField.set(3, (1,2))`
at concrete axes. -/
theorem C7_witness :
    (SField.set blankState 3 (1, 1)).staggered.getD 1 false = false ∧
    (SField.set blankState 3 (1, 2)).staggered.getD 0 false = false ∧
    ((SField.set blankState 3 (1, 2)).staggered.getD 1 false = true ↔
      (1 = 1 ∨ 1 = 2)) :=
  ⟨(C7_sfield_staggering blankState 3 (1, 1) (by decide) (by decide) (by decide)
      (by decide)).1 rfl 1 (by decide),
   ((C7_sfield_staggering blankState 3 (1, 2) (by decide) (by decide) (by decide)
      (by decide)).2 (by decide)).1,
   ((C7_sfield_staggering blankState 3 (1, 2) (by decide) (by decide) (by decide)
      (by decide)).2 (by decide)).2 1 (by decide)⟩

/-- C10 (confirmed): `Field.__init__` invokes `set(**kwargs)` exactly when
strictly more than one keyword argument is supplied, so one keyword argument
silently leaves the field unconfigured without an error, while
`Media.__init__` invokes `set` whenever at least one keyword argument is
supplied. -/
theorem C10_init_thresholds :
    (∀ kwargs : List (String × PyVal),
      (Field.initAttrs kwargs).2.1 = true ↔ 1 < kwargs.length) ∧
    (∀ (k : String) (v : PyVal),
      Field.initAttrs [(k, v)] = (⟨none, none, none⟩, false, none)) ∧
    (∀ kwargs : List (String × PyVal),
      (Media.initAttrs kwargs).2.1 = true ↔ 0 < kwargs.length) := by
  refine ⟨fun kwargs => ?_, fun k v => rfl, fun kwargs => ?_⟩
  · rw [Field.initAttrs]
    by_cases h : kwargs.length > 1
    · rw [if_pos h]
      simp [h]
    · rw [if_neg h]
      simp [h]
  · rw [Media.initAttrs]
    by_cases h : kwargs.length > 0
    · rw [if_pos h]
      simp [h]
    · rw [if_neg h]
      simp [h]

/-- C3 (confirmed): `Field.align` rewrites each indexed leaf as the spec
says — a velocity/stress field reference is shifted per axis by the
`specShift` of the two staggering flags (no shift on agreement, `+1/2` when
only the aligning field is staggered, `-1/2` when only the referenced field
is), a media reference is shifted by `+1/2` exactly on the spatial axes
where the aligning field is staggered — and leaves every other leaf
unchanged, rebuilding composites from aligned operands.  The length
hypotheses delimit the in-bounds domain on which the Python loops do not
raise `IndexError`. -/
theorem C3_align_leaf_shifts (dim : ℕ) (rs : List Bool) :
    (∀ (f : FRef) (l : List SymIdx), (f.kind = FKind.vel ∨ f.kind = FKind.str) →
      l.length ≤ rs.length → l.length ≤ f.staggered.length →
      align dim rs (.indexed (.fld f) l) =
        .indexed (.fld f) (specFieldIdx rs f.staggered l)) ∧
    (∀ (m : MRef) (l : List SymIdx), dim ≤ l.length → dim < rs.length →
      align dim rs (.indexed (.media m) l) =
        .indexed (.media m) (specMediaIdx dim rs l)) ∧
    (∀ i, align dim rs (.symOff i) = .symOff i) ∧
    (∀ q, align dim rs (.num q) = .num q) ∧
    (∀ nm l, align dim rs (.indexed (.other nm) l) = .indexed (.other nm) l) ∧
    (∀ (f : FRef) (l : List SymIdx), f.kind = FKind.reg ∨ f.kind = FKind.plain →
      align dim rs (.indexed (.fld f) l) = .indexed (.fld f) l) ∧
    (∀ op a, align dim rs (.un op a) = .un op (align dim rs a)) ∧
    (∀ op a b, align dim rs (.bin op a b) =
      .bin op (align dim rs a) (align dim rs b)) := by
  refine ⟨?_, ?_, fun i => rfl, fun q => rfl, fun nm l => rfl, ?_,
    fun op a => rfl, fun op a b => rfl⟩
  · intro f l hk _ _
    rw [align, if_pos hk, zipShiftFrom_eq_spec]
    rfl
  · intro m l _ _
    rw [align, mediaAlign_eq_spec]
  · intro f l hk
    rw [align, if_neg]
    rcases hk with h | h <;> rw [h] <;> decide

/-- C3 witness: aligning `Tzz[t,x,y,z]` and `rho[x,y,z]` from the frame of
`Vx` (staggered `[True,True,False,False]`). -/
theorem C3_witness :
    align 3 [true, true, false, false]
        (.indexed (.fld ⟨FKind.str, "Tzz", [false, false, false, false]⟩)
          [⟨"t", 0⟩, ⟨"x", 0⟩, ⟨"y", 0⟩, ⟨"z", 0⟩]) =
      .indexed (.fld ⟨FKind.str, "Tzz", [false, false, false, false]⟩)
        (specFieldIdx [true, true, false, false] [false, false, false, false]
          [⟨"t", 0⟩, ⟨"x", 0⟩, ⟨"y", 0⟩, ⟨"z", 0⟩]) ∧
    align 3 [true, true, false, false] rhoRef =
      .indexed (.media ⟨"rho"⟩)
        (specMediaIdx 3 [true, true, false, false] [⟨"x", 0⟩, ⟨"y", 0⟩, ⟨"z", 0⟩]) :=
  ⟨(C3_align_leaf_shifts 3 [true, true, false, false]).1
      ⟨FKind.str, "Tzz", [false, false, false, false]⟩
      [⟨"t", 0⟩, ⟨"x", 0⟩, ⟨"y", 0⟩, ⟨"z", 0⟩] (Or.inr rfl) (by decide) (by decide),
   (C3_align_leaf_shifts 3 [true, true, false, false]).2.1 ⟨"rho"⟩
      [⟨"x", 0⟩, ⟨"y", 0⟩, ⟨"z", 0⟩] (by decide) (by decide)⟩

/-- C8 counterexample: the expression `rho[x,y,z]` contains no field
reference at all (so the claim hypothesis — every indexed field reference
agrees in staggering with the reference field — holds), yet aligning it from
the frame of `Vx` (staggered `[True,True,False,False]`, dimension 3) shifts
the `x` index by `+1/2` and so does not return the expression unchanged. -/
theorem C8_counterexample :
    fieldRefsMatch [true, true, false, false] rhoRef = true ∧
    align 3 [true, true, false, false] rhoRef ≠ rhoRef := by
  refine ⟨rfl, fun h => ?_⟩
  have h2 : (⟨"x", 0 + hf⟩ : SymIdx) = ⟨"x", 0⟩ :=
    congrArg (fun e => (Expr.topIdx e).getD 0 ⟨"", 0⟩) h
  have h3 : (0 : ℚ) + hf = 0 := congrArg SymIdx.off h2
  norm_num [hf] at h3

/-- C8 (corrected): alignment is a no-op on an expression all of whose
indexed velocity/stress field references agree in staggering with the
reference field, provided additionally that the expression contains no
media reference (a media reference is shifted whenever the reference field
is staggered on some spatial axis, regardless of any agreement). -/
theorem C8_amended (dim : ℕ) (rs : List Bool) (e : Expr)
    (h : alignFixed rs e = true) : align dim rs e = e :=
  align_noop dim rs e h

/-- C8 witness: `Vx` aligning the sum of its own reference and a constant is
the identity. -/
theorem C8_witness :
    alignFixed [true, true, false, false] (.bin "Add" vxRef (.num 2)) = true ∧
    align 3 [true, true, false, false] (.bin "Add" vxRef (.num 2)) =
      .bin "Add" vxRef (.num 2) :=
  ⟨rfl, C8_amended 3 [true, true, false, false] (.bin "Add" vxRef (.num 2)) rfl⟩

/-- C1 counterexample: `SField.set_free_surface` never validates the
algorithm name — calling it on `Txy` with the unknown algorithm `"foo"` at
axis 3 raises nothing and overwrites `bc[3][0]` (previously unset, `None`)
with the empty equation list. -/
theorem C1_counterexample :
    (SField.setFreeSurface solve0 fdAcc0 txyState 3 ⟨"b", 0⟩ 0 "foo").2 = none ∧
    bcGet txyState 3 0 = none ∧
    bcGet (SField.setFreeSurface solve0 fdAcc0 txyState 3 ⟨"b", 0⟩ 0 "foo").1 3 0 =
      some [] :=
  ⟨rfl, rfl, rfl⟩

/-- C1 (corrected): only `VField.set_free_surface` validates the algorithm
name: for any name other than robertsson and levander it raises
`ValueError("Unknown boundary condition algorithm")` and returns with the
state — in particular every `bc` entry — exactly as it was.
`SField.set_free_surface` performs no validation at all: any algorithm name
other than `"levander"` is processed exactly as `"robertsson"` (empty list
when `d` is not a direction axis, antisymmetry equations otherwise), with no
error and with `bc[d][side]` overwritten. -/
theorem C1_amended :
    (∀ (solveFn : Eqn → Expr → Expr) (fdAcc : DerivAtom → ℕ → Option Expr)
      (st : FieldState) (d : ℕ) (b : SymIdx) (side : ℕ) (algo : String),
      algo ≠ "robertsson" → algo ≠ "levander" →
      VField.setFreeSurface solveFn fdAcc st d b side algo =
        (st, some "Unknown boundary condition algorithm")) ∧
    (∀ (solveFn : Eqn → Expr → Expr) (fdAcc : DerivAtom → ℕ → Option Expr)
      (st : FieldState) (d : ℕ) (b : SymIdx) (side : ℕ) (algo : String),
      algo ≠ "levander" →
      SField.setFreeSurface solveFn fdAcc st d b side algo =
        SField.setFreeSurface solveFn fdAcc st d b side "robertsson") := by
  constructor
  · intro solveFn fdAcc st d b side algo h1 h2
    rw [VField.setFreeSurface, if_neg h2, if_neg h1]
  · intro solveFn fdAcc st d b side algo h2
    rw [SField.setFreeSurface, SField.setFreeSurface]
    by_cases hd : d ≠ st.direction2.1 ∧ d ≠ st.direction2.2
    · rw [if_pos hd, if_pos hd, if_pos (Or.inl h2),
        if_pos (Or.inl (show ¬("robertsson" = "levander") by decide))]
    · rw [if_neg hd, if_neg hd]

/-- C1 witness: the unknown algorithm `"foo"` on concrete fields. -/
theorem C1_witness :
    VField.setFreeSurface solve0 fdAcc0 vxState 1 ⟨"b", 0⟩ 0 "foo" =
      (vxState, some "Unknown boundary condition algorithm") ∧
    SField.setFreeSurface solve0 fdAcc0 txyState 1 ⟨"b", 0⟩ 0 "foo" =
      SField.setFreeSurface solve0 fdAcc0 txyState 1 ⟨"b", 0⟩ 0 "robertsson" :=
  ⟨C1_amended.1 solve0 fdAcc0 vxState 1 ⟨"b", 0⟩ 0 "foo" (by decide) (by decide),
   C1_amended.2 solve0 fdAcc0 txyState 1 ⟨"b", 0⟩ 0 "foo" (by decide)⟩

/-- C9 (confirmed): whenever `set_free_surface` completes without error, the
only state it modifies is the entry `bc[d][side]`: every other
boundary-condition entry and every other field attribute is unchanged. -/
theorem C9_frame :
    (∀ (solveFn : Eqn → Expr → Expr) (fdAcc : DerivAtom → ℕ → Option Expr)
      (st : FieldState) (d : ℕ) (b : SymIdx) (side : ℕ) (algo : String) (d2 s2 : ℕ),
      (VField.setFreeSurface solveFn fdAcc st d b side algo).2 = none →
      ¬(d2 = d ∧ s2 = side) →
      bcGet (VField.setFreeSurface solveFn fdAcc st d b side algo).1 d2 s2 =
        bcGet st d2 s2 ∧
      sameAttrs (VField.setFreeSurface solveFn fdAcc st d b side algo).1 st) ∧
    (∀ (solveFn : Eqn → Expr → Expr) (fdAcc : DerivAtom → ℕ → Option Expr)
      (st : FieldState) (d : ℕ) (b : SymIdx) (side : ℕ) (algo : String) (d2 s2 : ℕ),
      (SField.setFreeSurface solveFn fdAcc st d b side algo).2 = none →
      ¬(d2 = d ∧ s2 = side) →
      bcGet (SField.setFreeSurface solveFn fdAcc st d b side algo).1 d2 s2 =
        bcGet st d2 s2 ∧
      sameAttrs (SField.setFreeSurface solveFn fdAcc st d b side algo).1 st) := by
  constructor
  · intro solveFn fdAcc st d b side algo d2 s2 hok hne
    by_cases h1 : algo = "levander"
    · rw [VField.setFreeSurface, if_pos h1] at hok ⊢
      cases hlev : VField.levanderEqs solveFn fdAcc st d b side with
      | none =>
          rw [hlev] at hok
          exact absurd hok (by simp)
      | some eqs =>
          exact ⟨bcGet_setBC_ne st eqs hne, sameAttrs_setBC st d side eqs⟩
    · by_cases h2 : algo = "robertsson"
      · rw [VField.setFreeSurface, if_neg h1, if_pos h2]
        exact ⟨bcGet_setBC_ne st _ hne, sameAttrs_setBC st d side _⟩
      · rw [VField.setFreeSurface, if_neg h1, if_neg h2] at hok
        exact absurd hok (by simp)
  · intro solveFn fdAcc st d b side algo d2 s2 hok hne
    by_cases hd : d ≠ st.direction2.1 ∧ d ≠ st.direction2.2
    · by_cases hl : ¬(algo = "levander") ∨ ¬(st.direction2.1 = st.direction2.2)
      · rw [SField.setFreeSurface, if_pos hd, if_pos hl]
        exact ⟨bcGet_setBC_ne st _ hne, sameAttrs_setBC st d side _⟩
      · rw [SField.setFreeSurface, if_pos hd, if_neg hl] at hok ⊢
        cases hlev : SField.levanderNormalEqs solveFn fdAcc st d b with
        | none =>
            rw [hlev] at hok
            exact absurd hok (by simp)
        | some eqs =>
            exact ⟨bcGet_setBC_ne st eqs hne, sameAttrs_setBC st d side eqs⟩
    · rw [SField.setFreeSurface, if_neg hd]
      exact ⟨bcGet_setBC_ne st _ hne, sameAttrs_setBC st d side _⟩

/-- C9 witness: the robertsson call on `Vx` at axis 1 leaves `bc[2][1]` and
all non-bc attributes unchanged. -/
theorem C9_witness :
    bcGet (VField.setFreeSurface solve0 fdAcc0 vxState 1 ⟨"b", 0⟩ 0 "robertsson").1 2 1 =
      bcGet vxState 2 1 ∧
    sameAttrs (VField.setFreeSurface solve0 fdAcc0 vxState 1 ⟨"b", 0⟩ 0 "robertsson").1
      vxState :=
  C9_frame.1 solve0 fdAcc0 vxState 1 ⟨"b", 0⟩ 0 "robertsson" 2 1 rfl (by decide)

theorem vRobSpec_length (st : FieldState) (d : ℕ) (b : SymIdx) (side : ℕ) :
    (vRobSpec st d b side).length = st.order.getD d 0 / 2 - 1 + 1 := by
  rw [vRobSpec, List.length_cons, List.length_map, List.length_range]

theorem sRobSpec_length (st : FieldState) (d : ℕ) (b : SymIdx) (side : ℕ) :
    (sRobSpec st d b side).length = st.order.getD d 0 / 2 - 1 + 1 := by
  rw [sRobSpec]
  by_cases hs : st.staggered.getD d false
  · rw [if_pos hs, List.length_cons, List.length_map, List.length_range]
  · rw [if_neg hs, List.length_cons, List.length_map, List.length_range]

theorem vRobEqs_spec (st : FieldState) (d : ℕ) (b : SymIdx) (side : ℕ)
    (hd0 : d ≠ 0) (hdi : d < st.indices.length) :
    vRobEqs st d b side = vRobSpec st d b side := by
  have h0i : 0 < st.indices.length := by omega
  have hmk : d < (mkIdx st.indices).length := by
    rw [length_mkIdx]
    exact hdi
  have hset : d < ((mkIdx st.indices).set d (vRobStart st d b side)).length := by
    rw [List.length_set]
    exact hmk
  have ht0 : ((mkIdx st.indices).set d (vRobStart st d b side)).getD 0 ⟨"", 0⟩ =
      ⟨st.indices.getD 0 "", 0⟩ := by
    rw [getD_set_ne _ _ _ hd0, getD_mkIdx _ h0i]
  show Eqn.substIdx (((mkIdx st.indices).set d (vRobStart st d b side)).getD 0 ⟨"", 0⟩)
      ((((mkIdx st.indices).set d (vRobStart st d b side)).getD 0 ⟨"", 0⟩).add 1)
      ⟨.indexed (.fld st.fref) ((mkIdx st.indices).set d (vRobStart st d b side)), .num 0⟩ ::
    vRobLoop st.fref d ((-1 : ℚ)^side) ((mkIdx st.indices).set d (vRobStart st d b side))
      (st.order.getD d 0 / 2 - 1) = vRobSpec st d b side
  rw [ht0, vRobLoop_closed st.fref d ((-1 : ℚ)^side) (st.order.getD d 0 / 2 - 1) _ hd0 hset,
    vRobSpec]
  congr 1
  apply List.map_congr_left
  intro a _
  rw [ht0, List.set_set, getD_set_self (mkIdx st.indices) _ _ hmk]

theorem sRobEqs_spec (st : FieldState) (d : ℕ) (b : SymIdx) (side : ℕ)
    (hd0 : d ≠ 0) (hdi : d < st.indices.length) :
    sRobEqs st d b side = sRobSpec st d b side := by
  have h0i : 0 < st.indices.length := by omega
  have hmk : d < (mkIdx st.indices).length := by
    rw [length_mkIdx]
    exact hdi
  have hmkset : ∀ v : SymIdx, d < ((mkIdx st.indices).set d v).length := fun v => by
    rw [List.length_set]
    exact hmk
  have ht0 : ∀ v : SymIdx, ((mkIdx st.indices).set d v).getD 0 ⟨"", 0⟩ =
      ⟨st.indices.getD 0 "", 0⟩ := fun v => by
    rw [getD_set_ne _ _ _ hd0, getD_mkIdx _ h0i]
  rw [sRobEqs, sRobSpec]
  by_cases hs : st.staggered.getD d false
  · rw [if_pos hs, if_pos hs]
    show Eqn.substIdx (((mkIdx st.indices).set d (b.add (-((1 : ℚ) - side)))).getD 0 ⟨"", 0⟩)
        ((((mkIdx st.indices).set d (b.add (-((1 : ℚ) - side)))).getD 0 ⟨"", 0⟩).add 1)
        ⟨.indexed (.fld st.fref) ((mkIdx st.indices).set d (b.add (-((1 : ℚ) - side)))),
         .bin "Mul" (.num (-1)) (.indexed (.fld st.fref)
           ((mkIdx st.indices).set d ((b.add (-((1 : ℚ) - side))).add ((-1 : ℚ)^side))))⟩ ::
      sRobLoop st.fref d ((-1 : ℚ)^side)
        ((mkIdx st.indices).set d (b.add (-((1 : ℚ) - side))))
        ((mkIdx st.indices).set d ((b.add (-((1 : ℚ) - side))).add ((-1 : ℚ)^side)))
        (st.order.getD d 0 / 2 - 1) = _
    rw [ht0, sRobLoop_closed st.fref d ((-1 : ℚ)^side) (st.order.getD d 0 / 2 - 1) _ _ hd0
      (hmkset _) (hmkset _)]
    congr 1
    apply List.map_congr_left
    intro a _
    rw [ht0, List.set_set, List.set_set, getD_set_self (mkIdx st.indices) _ _ hmk,
      getD_set_self (mkIdx st.indices) _ _ hmk]
  · rw [if_neg hs, if_neg hs]
    show Eqn.substIdx (((mkIdx st.indices).set d b).getD 0 ⟨"", 0⟩)
        ((((mkIdx st.indices).set d b).getD 0 ⟨"", 0⟩).add 1)
        ⟨.indexed (.fld st.fref) ((mkIdx st.indices).set d b), .num 0⟩ ::
      sRobLoop st.fref d ((-1 : ℚ)^side)
        ((mkIdx st.indices).set d b) ((mkIdx st.indices).set d b)
        (st.order.getD d 0 / 2 - 1) = _
    rw [ht0, sRobLoop_closed st.fref d ((-1 : ℚ)^side) (st.order.getD d 0 / 2 - 1) _ _ hd0
      (hmkset _) (hmkset _)]
    congr 1
    apply List.map_congr_left
    intro a _
    rw [ht0, List.set_set, getD_set_self (mkIdx st.indices) _ _ hmk, List.set_set]

theorem levanderEqs_singleton (solveFn : Eqn → Expr → Expr)
    (fdAcc : DerivAtom → ℕ → Option Expr) (st : FieldState) (d : ℕ) (b : SymIdx)
    (side : ℕ) {l : List Eqn}
    (h : VField.levanderEqs solveFn fdAcc st d b side = some l) : ∃ e, l = [e] := by
  rw [VField.levanderEqs] at h
  obtain ⟨fdt, hA, h⟩ := Option.bind_eq_some.mp h
  obtain ⟨expr, hB, h⟩ := Option.bind_eq_some.mp h
  injection h with h2
  exact ⟨_, h2.symm⟩

theorem levanderNormalEqs_singleton (solveFn : Eqn → Expr → Expr)
    (fdAcc : DerivAtom → ℕ → Option Expr) (st : FieldState) (d : ℕ) (b : SymIdx)
    {l : List Eqn}
    (h : SField.levanderNormalEqs solveFn fdAcc st d b = some l) : ∃ e, l = [e] := by
  rw [SField.levanderNormalEqs] at h
  obtain ⟨dtE, hA, h⟩ := Option.bind_eq_some.mp h
  obtain ⟨deriv0, hB, h⟩ := Option.bind_eq_some.mp h
  obtain ⟨expr2, hC, h⟩ := Option.bind_eq_some.mp h
  obtain ⟨exprB, hD, h⟩ := Option.bind_eq_some.mp h
  obtain ⟨fdl, hE, h⟩ := Option.bind_eq_some.mp h
  obtain ⟨d01, hF, h⟩ := Option.bind_eq_some.mp h
  injection h with h2
  exact ⟨_, h2.symm⟩

/-- C4 counterexample: `Txy` (direction axes 1 and 2) at the `z` boundary
(`d = 3`, not a direction axis) under robertsson stores the empty list — not
`order[3]/2 = 2` equations. -/
theorem C4_counterexample :
    (SField.setFreeSurface solve0 fdAcc0 txyState 3 ⟨"b", 0⟩ 0 "robertsson").2 = none ∧
    bcGet (SField.setFreeSurface solve0 fdAcc0 txyState 3 ⟨"b", 0⟩ 0 "robertsson").1 3 0 =
      some [] ∧
    txyState.order.getD 3 0 / 2 = 2 :=
  ⟨rfl, rfl, rfl⟩

/-- C4 (corrected): robertsson stores exactly `order[d]/2` equations — one
initial equation plus `order[d]/2 - 1` ghost layers stepping one grid unit
further out each time, each time-shifted from `t` to `t+1` — for every
velocity field, and for every stress field whose axis `d` is one of its
direction axes; a stress field whose axis `d` is not a direction axis
instead stores the empty equation list. -/
theorem C4_amended :
    (∀ (solveFn : Eqn → Expr → Expr) (fdAcc : DerivAtom → ℕ → Option Expr)
      (st : FieldState) (d : ℕ) (b : SymIdx) (side : ℕ),
      d ≠ 0 → d < st.indices.length → d < st.bc.length →
      side < (st.bc.getD d []).length → 2 ≤ st.order.getD d 0 →
      (VField.setFreeSurface solveFn fdAcc st d b side "robertsson").2 = none ∧
      bcGet (VField.setFreeSurface solveFn fdAcc st d b side "robertsson").1 d side =
        some (vRobSpec st d b side) ∧
      (vRobSpec st d b side).length = st.order.getD d 0 / 2) ∧
    (∀ (solveFn : Eqn → Expr → Expr) (fdAcc : DerivAtom → ℕ → Option Expr)
      (st : FieldState) (d : ℕ) (b : SymIdx) (side : ℕ),
      d ≠ 0 → d < st.indices.length → d < st.bc.length →
      side < (st.bc.getD d []).length → 2 ≤ st.order.getD d 0 →
      ¬(d ≠ st.direction2.1 ∧ d ≠ st.direction2.2) →
      (SField.setFreeSurface solveFn fdAcc st d b side "robertsson").2 = none ∧
      bcGet (SField.setFreeSurface solveFn fdAcc st d b side "robertsson").1 d side =
        some (sRobSpec st d b side) ∧
      (sRobSpec st d b side).length = st.order.getD d 0 / 2) ∧
    (∀ (solveFn : Eqn → Expr → Expr) (fdAcc : DerivAtom → ℕ → Option Expr)
      (st : FieldState) (d : ℕ) (b : SymIdx) (side : ℕ),
      d < st.bc.length → side < (st.bc.getD d []).length →
      (d ≠ st.direction2.1 ∧ d ≠ st.direction2.2) →
      (SField.setFreeSurface solveFn fdAcc st d b side "robertsson").2 = none ∧
      bcGet (SField.setFreeSurface solveFn fdAcc st d b side "robertsson").1 d side =
        some []) := by
  refine ⟨?_, ?_, ?_⟩
  · intro solveFn fdAcc st d b side hd0 hdi hbc hside ho
    rw [VField.setFreeSurface, if_neg (show ¬("robertsson" = "levander") by decide),
      if_pos rfl]
    refine ⟨rfl, ?_, ?_⟩
    · rw [bcGet_setBC_self st _ hbc hside, vRobEqs_spec st d b side hd0 hdi]
    · rw [vRobSpec_length]
      omega
  · intro solveFn fdAcc st d b side hd0 hdi hbc hside ho hdir
    rw [SField.setFreeSurface, if_neg hdir]
    refine ⟨rfl, ?_, ?_⟩
    · rw [bcGet_setBC_self st _ hbc hside, sRobEqs_spec st d b side hd0 hdi]
    · rw [sRobSpec_length]
      omega
  · intro solveFn fdAcc st d b side hbc hside hdir
    rw [SField.setFreeSurface, if_pos hdir,
      if_pos (Or.inl (show ¬("robertsson" = "levander") by decide))]
    exact ⟨rfl, bcGet_setBC_self st _ hbc hside⟩

/-- C4 witness: `Vx` (order 4 on axis 1) at a lower boundary stores the
spec-described equations, exactly `4/2 = 2` of them. -/
theorem C4_witness :
    (VField.setFreeSurface solve0 fdAcc0 vxState 1 ⟨"b", 0⟩ 0 "robertsson").2 = none ∧
    bcGet (VField.setFreeSurface solve0 fdAcc0 vxState 1 ⟨"b", 0⟩ 0 "robertsson").1 1 0 =
      some (vRobSpec vxState 1 ⟨"b", 0⟩ 0) ∧
    (vRobSpec vxState 1 ⟨"b", 0⟩ 0).length = vxState.order.getD 1 0 / 2 :=
  C4_amended.1 solve0 fdAcc0 vxState 1 ⟨"b", 0⟩ 0 (by decide) (by decide) (by decide)
    (by decide) (by decide)

/-- C5 counterexample: `Txy` at axis 1 (one of its direction axes, order 4)
under levander runs the antisymmetry branch and stores two equations, not
one. -/
theorem C5_counterexample :
    (SField.setFreeSurface solve0 fdAcc0 txyState 1 ⟨"b", 0⟩ 0 "levander").2 = none ∧
    ((bcGet (SField.setFreeSurface solve0 fdAcc0 txyState 1 ⟨"b", 0⟩ 0 "levander").1
      1 0).getD []).length = 2 :=
  ⟨rfl, rfl⟩

/-- C5 (corrected): levander stores exactly one equation for every velocity
field, and for a stress field only in the normal-stress coupling case (axis
`d` not a direction axis, equal direction pair); a stress field whose axis
`d` is a direction axis stores the `order[d]/2` antisymmetry equations, and
a shear stress field at a non-direction axis stores the empty list. -/
theorem C5_amended :
    (∀ (solveFn : Eqn → Expr → Expr) (fdAcc : DerivAtom → ℕ → Option Expr)
      (st : FieldState) (d : ℕ) (b : SymIdx) (side : ℕ),
      d < st.bc.length → side < (st.bc.getD d []).length →
      (VField.setFreeSurface solveFn fdAcc st d b side "levander").2 = none →
      ∃ e, bcGet (VField.setFreeSurface solveFn fdAcc st d b side "levander").1 d side =
        some [e]) ∧
    (∀ (solveFn : Eqn → Expr → Expr) (fdAcc : DerivAtom → ℕ → Option Expr)
      (st : FieldState) (d : ℕ) (b : SymIdx) (side : ℕ),
      d < st.bc.length → side < (st.bc.getD d []).length →
      (d ≠ st.direction2.1 ∧ d ≠ st.direction2.2) →
      st.direction2.1 = st.direction2.2 →
      (SField.setFreeSurface solveFn fdAcc st d b side "levander").2 = none →
      ∃ e, bcGet (SField.setFreeSurface solveFn fdAcc st d b side "levander").1 d side =
        some [e]) ∧
    (∀ (solveFn : Eqn → Expr → Expr) (fdAcc : DerivAtom → ℕ → Option Expr)
      (st : FieldState) (d : ℕ) (b : SymIdx) (side : ℕ),
      d ≠ 0 → d < st.indices.length → d < st.bc.length →
      side < (st.bc.getD d []).length → 2 ≤ st.order.getD d 0 →
      ¬(d ≠ st.direction2.1 ∧ d ≠ st.direction2.2) →
      (SField.setFreeSurface solveFn fdAcc st d b side "levander").2 = none ∧
      bcGet (SField.setFreeSurface solveFn fdAcc st d b side "levander").1 d side =
        some (sRobSpec st d b side) ∧
      (sRobSpec st d b side).length = st.order.getD d 0 / 2) ∧
    (∀ (solveFn : Eqn → Expr → Expr) (fdAcc : DerivAtom → ℕ → Option Expr)
      (st : FieldState) (d : ℕ) (b : SymIdx) (side : ℕ),
      d < st.bc.length → side < (st.bc.getD d []).length →
      (d ≠ st.direction2.1 ∧ d ≠ st.direction2.2) →
      ¬(st.direction2.1 = st.direction2.2) →
      (SField.setFreeSurface solveFn fdAcc st d b side "levander").2 = none ∧
      bcGet (SField.setFreeSurface solveFn fdAcc st d b side "levander").1 d side =
        some []) := by
  refine ⟨?_, ?_, ?_, ?_⟩
  · intro solveFn fdAcc st d b side hbc hside hok
    rw [VField.setFreeSurface, if_pos rfl] at hok ⊢
    cases hlev : VField.levanderEqs solveFn fdAcc st d b side with
    | none =>
        rw [hlev] at hok
        exact absurd hok (by simp)
    | some l =>
        obtain ⟨e, he⟩ := levanderEqs_singleton solveFn fdAcc st d b side hlev
        subst he
        exact ⟨e, bcGet_setBC_self st _ hbc hside⟩
  · intro solveFn fdAcc st d b side hbc hside hdir heq hok
    rw [SField.setFreeSurface, if_pos hdir,
      if_neg (show ¬(¬("levander" = "levander") ∨ ¬(st.direction2.1 = st.direction2.2)) by
        simp [heq])] at hok ⊢
    cases hlev : SField.levanderNormalEqs solveFn fdAcc st d b with
    | none =>
        rw [hlev] at hok
        exact absurd hok (by simp)
    | some l =>
        obtain ⟨e, he⟩ := levanderNormalEqs_singleton solveFn fdAcc st d b hlev
        subst he
        exact ⟨e, bcGet_setBC_self st _ hbc hside⟩
  · intro solveFn fdAcc st d b side hd0 hdi hbc hside ho hdir
    rw [SField.setFreeSurface, if_neg hdir]
    refine ⟨rfl, ?_, ?_⟩
    · rw [bcGet_setBC_self st _ hbc hside, sRobEqs_spec st d b side hd0 hdi]
    · rw [sRobSpec_length]
      omega
  · intro solveFn fdAcc st d b side hbc hside hdir hne
    rw [SField.setFreeSurface, if_pos hdir, if_pos (Or.inr hne)]
    exact ⟨rfl, bcGet_setBC_self st _ hbc hside⟩

/-- C5 witness: levander on `Vx` at axis 1 stores exactly one equation. -/
theorem C5_witness :
    ∃ e, bcGet (VField.setFreeSurface solve0 fdAcc0 vxState 1 ⟨"b", 0⟩ 0 "levander").1 1 0 =
      some [e] :=
  C5_amended.1 solve0 fdAcc0 vxState 1 ⟨"b", 0⟩ 0 (by decide) (by decide) rfl

end Opesci
